import Mathlib

/-!
# NightWatcher — formal model of the healing pipeline core

A shallow embedding, in Lean 4, of the parts of the NightWatcher
self-healing CI agent that the specification's testable properties talk
about:

* the patch applicator `applyFix` / `revertFix` (src/agents/fixer.ts),
  modelled at the level of file contents as lists of characters;
* the log localizer `findFailingJobLog` and the log truncator
  `truncateLog` (src/github/logs.ts);
* the durable store operations (src/db/client.ts) over an explicit
  in-memory table state;
* the pipeline orchestrator `processFailure` (src/fix-loop/orchestrator.ts)
  with every external effect (GitHub, LLM, Docker sandbox) supplied by an
  environment of oracles, and the webhook handler
  (src/webhook/handler.ts, src/webhook/validator.ts).

File texts are modelled as `List Char`; machine numbers as `Nat`/`Int`;
the analysis confidence as `ℚ`; JavaScript exceptions as `Except`.
-/

namespace NightWatcher

/-! ## String primitives

JavaScript's `String.prototype.indexOf` / `includes` / `replace` (with a
string pattern, which replaces only the first occurrence) modelled on
`List Char`, including the `$`-escape sequences that `replace` expands in
the replacement string. -/

/-- Index of the first (leftmost) occurrence of `pat` in `s`, scanning from
position 0; `none` when `pat` does not occur.  For the empty pattern the
result is `some 0`, as for JS `indexOf`. -/
def firstIndexOf (pat : List Char) : List Char → Option Nat
  | [] => if pat = [] then some 0 else none
  | c :: rest =>
    if pat.isPrefixOf (c :: rest) then some 0
    else (firstIndexOf pat rest).map (· + 1)

/-- JS `content.includes(pat)`. -/
def includesStr (s pat : List Char) : Bool :=
  (firstIndexOf pat s).isSome

/-- ECMAScript GetSubstitution for a *string* pattern (no capture groups):
in the replacement string, `$$` yields `$`, `$&` the matched text, a `$`
followed by a backquote the portion before the match, `$'` the portion
after it; any other `$` (including `$n`, since there are no captures, and
a trailing `$`) stays literal. -/
def getSubstitution (matched pre post : List Char) : List Char → List Char
  | [] => []
  | [c] => [c]
  | c :: d :: rest =>
    if c = '$' then
      if d = '$' then '$' :: getSubstitution matched pre post rest
      else if d = '&' then matched ++ getSubstitution matched pre post rest
      else if d = Char.ofNat 96 then pre ++ getSubstitution matched pre post rest
      else if d = Char.ofNat 39 then post ++ getSubstitution matched pre post rest
      else c :: getSubstitution matched pre post (d :: rest)
    else c :: getSubstitution matched pre post (d :: rest)

/-- A replacement string without `$` is substituted literally. -/
theorem getSubstitution_of_no_dollar (matched pre post : List Char) :
    ∀ rep : List Char, '$' ∉ rep → getSubstitution matched pre post rep = rep
  | [], _ => rfl
  | [c], _ => rfl
  | c :: d :: rest, h => by
    have hc : ¬ c = '$' := by
      intro hh
      exact h (by simp [hh])
    have htail : '$' ∉ d :: rest := fun hm => h (List.mem_cons_of_mem _ hm)
    unfold getSubstitution
    rw [if_neg hc,
      getSubstitution_of_no_dollar matched pre post (d :: rest) htail]

/-- JS `content.replace(pat, rep)` with a string pattern: replace the first
occurrence only, expanding the `$`-escapes of `rep` against that match;
return `s` unchanged when `pat` does not occur. -/
def replaceFirst (s pat rep : List Char) : List Char :=
  match firstIndexOf pat s with
  | none => s
  | some i =>
    s.take i ++ getSubstitution pat (s.take i) (s.drop (i + pat.length)) rep ++
      s.drop (i + pat.length)

/-- Number of positions of `s` at which `pat` occurs (occurrences may
overlap; "occurs exactly once" means this count is 1). -/
def countOcc (pat s : List Char) : Nat :=
  ((List.range (s.length + 1)).filter (fun i => pat.isPrefixOf (s.drop i))).length

/-! ### Basic lemmas about `firstIndexOf` -/

theorem firstIndexOf_sound {pat s : List Char} {i : Nat}
    (h : firstIndexOf pat s = some i) : pat.isPrefixOf (s.drop i) = true := by
  induction s generalizing i with
  | nil =>
    unfold firstIndexOf at h
    split at h
    · next hp =>
      cases h
      simp [hp, List.isPrefixOf]
    · exact absurd h (by simp)
  | cons c rest ih =>
    unfold firstIndexOf at h
    split at h
    · next hp =>
      cases h
      simpa using hp
    · next hp =>
      rcases Option.map_eq_some'.mp h with ⟨j, hj, rfl⟩
      simpa using ih hj

theorem firstIndexOf_le_length {pat s : List Char} {i : Nat}
    (h : firstIndexOf pat s = some i) : i ≤ s.length := by
  induction s generalizing i with
  | nil =>
    unfold firstIndexOf at h
    split at h
    · cases h; simp
    · exact absurd h (by simp)
  | cons c rest ih =>
    unfold firstIndexOf at h
    split at h
    · cases h; simp
    · rcases Option.map_eq_some'.mp h with ⟨j, hj, rfl⟩
      simpa using Nat.succ_le_succ (ih hj)

theorem firstIndexOf_min {pat s : List Char} {i : Nat}
    (h : firstIndexOf pat s = some i) :
    ∀ j < i, ¬ pat.isPrefixOf (s.drop j) = true := by
  induction s generalizing i with
  | nil =>
    unfold firstIndexOf at h
    split at h
    · cases h; omega
    · exact absurd h (by simp)
  | cons c rest ih =>
    unfold firstIndexOf at h
    split at h
    · cases h; omega
    · next hp =>
      rcases Option.map_eq_some'.mp h with ⟨k, hk, rfl⟩
      intro j hj
      match j with
      | 0 => simpa using hp
      | j + 1 =>
        have := ih hk j (by omega)
        simpa using this

theorem firstIndexOf_complete {pat s : List Char} {i : Nat}
    (hi : i ≤ s.length) (h : pat.isPrefixOf (s.drop i) = true) :
    ∃ j, j ≤ i ∧ firstIndexOf pat s = some j := by
  induction s generalizing i with
  | nil =>
    refine ⟨0, Nat.zero_le _, ?_⟩
    have : i = 0 := Nat.le_zero.mp hi
    subst this
    simp only [List.drop_nil] at h
    have : pat = [] := by
      cases pat with
      | nil => rfl
      | cons a l => simp [List.isPrefixOf] at h
    simp [firstIndexOf, this]
  | cons c rest ih =>
    by_cases hp : pat.isPrefixOf (c :: rest) = true
    · exact ⟨0, Nat.zero_le _, by simp [firstIndexOf, hp]⟩
    · match i with
      | 0 => exact absurd h hp
      | i + 1 =>
        have hi' : i ≤ rest.length := by simpa using hi
        rcases ih hi' (by simpa using h) with ⟨j, hj, hfio⟩
        exact ⟨j + 1, by omega, by simp [firstIndexOf, hp, hfio]⟩

/-- The decomposition of a list at an occurrence of a pattern. -/
theorem decomp_of_isPrefixOf_drop {pat s : List Char} {i : Nat}
    (h : pat.isPrefixOf (s.drop i) = true) :
    s.take i ++ pat ++ s.drop (i + pat.length) = s := by
  have hpre : pat <+: s.drop i := List.isPrefixOf_iff_prefix.mp h
  rcases hpre with ⟨t, ht⟩
  have hdrop : s.drop (i + pat.length) = t := by
    have : s.drop (i + pat.length) = (s.drop i).drop pat.length := by
      rw [List.drop_drop]
    rw [this, ← ht, List.drop_left]
  rw [hdrop]
  have : s.take i ++ (pat ++ t) = s.take i ++ s.drop i := by rw [ht]
  simpa [List.append_assoc] using this

/-- An occurrence position of `pat` in `s` is listed by the position filter
underlying `countOcc`. -/
theorem mem_occFilter_of_occ {pat s : List Char} {i : Nat}
    (hle : i ≤ s.length) (h : pat.isPrefixOf (s.drop i) = true) :
    i ∈ (List.range (s.length + 1)).filter (fun j => pat.isPrefixOf (s.drop j)) := by
  refine List.mem_filter.mpr ⟨List.mem_range.mpr ?_, h⟩
  omega

/-- When `pat` occurs exactly once in `s`, any two occurrence positions
coincide. -/
theorem occ_unique_of_countOcc_one {pat s : List Char} {i j : Nat}
    (hcount : countOcc pat s = 1)
    (hi : i ≤ s.length) (hoi : pat.isPrefixOf (s.drop i) = true)
    (hj : j ≤ s.length) (hoj : pat.isPrefixOf (s.drop j) = true) : i = j := by
  unfold countOcc at hcount
  rcases List.length_eq_one.mp hcount with ⟨a, ha⟩
  have h1 := mem_occFilter_of_occ hi hoi
  have h2 := mem_occFilter_of_occ hj hoj
  rw [ha] at h1 h2
  simp only [List.mem_singleton] at h1 h2
  omega

/-! ## Patch applicator (src/agents/fixer.ts)

`applyFix` and `revertFix` modelled at the level of the target file's
contents; the `fs` lookup of the file inside the workspace is outside the
model (a missing file makes both functions report failure before touching
any contents). -/

/-- `applyFix` (fixer.ts): fail when `original_code` does not occur in the
contents, replace the first occurrence by `fixed_code`, fail when that
replacement leaves the contents unchanged; otherwise return the new
contents that are written back. -/
def applyFixContents (content orig fixed : List Char) : Option (List Char) :=
  if includesStr content orig then
    let newContent := replaceFirst content orig fixed
    if newContent = content then none else some newContent
  else none

/-- `revertFix` (fixer.ts): when `fixed_code` no longer occurs the function
reports failure (source logs "may already be reverted" and returns false);
otherwise the first occurrence of `fixed_code` is replaced back by
`original_code` and the result written. -/
def revertFixContents (content orig fixed : List Char) : Option (List Char) :=
  if includesStr content fixed then some (replaceFirst content fixed orig)
  else none

/-- **C5, counterexample.** The claim fails on contents `"ab"` with patch
`original_code = "b"`, `fixed_code = "a"`: `"b"` occurs exactly once,
`applyFix` succeeds and yields `"aa"`, but `revertFix` replaces the *first*
`"a"` and yields `"ba" ≠ "ab"`. -/
theorem applyFix_revertFix_not_involutive :
    applyFixContents "ab".toList "b".toList "a".toList = some "aa".toList ∧
    countOcc "b".toList "ab".toList = 1 ∧
    revertFixContents "aa".toList "b".toList "a".toList = some "ba".toList ∧
    "ba".toList ≠ "ab".toList := by
  refine ⟨by decide, by decide, by decide, by decide⟩

/-- JS `$`-substitution defeats the round trip even under the occurrence
conditions: applying the patch `"c" → "x$$y"` to `"c x$$y"` writes
`"x$y x$$y"` (the `$$` collapses to one `$`), the literal `fixed_code`
occurs exactly once in the patched contents, and reverting replaces that
other occurrence: the original is not restored. -/
theorem applyFix_dollar_substitution :
    applyFixContents "c x$$y".toList "c".toList "x$$y".toList =
      some "x$y x$$y".toList ∧
    countOcc "c".toList "c x$$y".toList = 1 ∧
    countOcc "x$$y".toList "x$y x$$y".toList = 1 ∧
    revertFixContents "x$y x$$y".toList "c".toList "x$$y".toList =
      some "x$y c".toList ∧
    "x$y c".toList ≠ "c x$$y".toList := by
  refine ⟨by decide, by decide, by decide, by decide, by decide⟩

/-- **C5, amended.** For every file contents and every patch whose two
spans contain no `$` character (so that JS `replace` substitutes them
literally), whose `original_code` occurs exactly once in those contents,
for which `applyFix` succeeds, and whose `fixed_code` occurs exactly once
in the *patched* contents, running `applyFix` followed by `revertFix`
restores the file contents byte-for-byte. -/
theorem applyFix_revertFix_restores (c orig fixed d : List Char)
    (happly : applyFixContents c orig fixed = some d)
    (_horig : countOcc orig c = 1)
    (hnodF : '$' ∉ fixed)
    (hnodO : '$' ∉ orig)
    (hfix : countOcc fixed d = 1) :
    revertFixContents d orig fixed = some c := by
  unfold applyFixContents at happly
  split at happly
  case isFalse => exact absurd happly (by simp)
  case isTrue hinc =>
    rcases Option.isSome_iff_exists.mp hinc with ⟨p, hfio⟩
    have hocc : orig.isPrefixOf (c.drop p) = true := firstIndexOf_sound hfio
    have hple : p ≤ c.length := firstIndexOf_le_length hfio
    have happly' : replaceFirst c orig fixed = d := by
      by_cases hne : replaceFirst c orig fixed = c
      · simp [hne] at happly
      · simpa [hne] using happly
    have hd : d = c.take p ++ fixed ++ c.drop (p + orig.length) := by
      rw [← happly']
      simp only [replaceFirst, hfio]
      rw [getSubstitution_of_no_dollar _ _ _ fixed hnodF]
    have htklen : (c.take p).length = p := by
      simp [List.length_take, Nat.min_eq_left hple]
    -- `fixed` occurs in `d` at position `p`
    have hdp : d.drop p = fixed ++ c.drop (p + orig.length) := by
      rw [hd, List.append_assoc]
      exact List.drop_left' htklen
    have hoccd : fixed.isPrefixOf (d.drop p) = true := by
      rw [hdp]
      exact List.isPrefixOf_iff_prefix.mpr ⟨c.drop (p + orig.length), rfl⟩
    have hpled : p ≤ d.length := by
      rw [hd]
      simp only [List.length_append, htklen]
      omega
    -- `revertFix` finds `fixed` — necessarily at position `p` by uniqueness
    rcases firstIndexOf_complete hpled hoccd with ⟨q, hqp, hq⟩
    have hq_occ : fixed.isPrefixOf (d.drop q) = true := firstIndexOf_sound hq
    have hqled : q ≤ d.length := firstIndexOf_le_length hq
    have hqeq : q = p := occ_unique_of_countOcc_one hfix hqled hq_occ hpled hoccd
    subst hqeq
    -- the replacement undoes the patch
    have htake : d.take q = c.take q := by
      rw [hd, List.append_assoc]
      exact List.take_left' htklen
    have hdrop : d.drop (q + fixed.length) = c.drop (q + orig.length) := by
      have hlen : (c.take q ++ fixed).length = q + fixed.length := by
        simp [List.length_append, htklen]
      rw [hd]
      exact List.drop_left' hlen
    have hrepl : replaceFirst d fixed orig = c := by
      simp only [replaceFirst, hq]
      rw [getSubstitution_of_no_dollar _ _ _ orig hnodO]
      rw [htake, hdrop]
      exact decomp_of_isPrefixOf_drop hocc
    rw [revertFixContents, includesStr, hq]
    simp [hrepl]

/-- **C5, witness** for `applyFix_revertFix_restores`: contents `"xby"`,
patch `"b" → "z"`. -/
theorem applyFix_revertFix_restores_witness :
    revertFixContents "xzy".toList "b".toList "z".toList = some "xby".toList :=
  applyFix_revertFix_restores "xby".toList "b".toList "z".toList "xzy".toList
    (by decide) (by decide) (by decide) (by decide) (by decide)

/-! ## Log localizer (src/github/logs.ts, `findFailingJobLog`)

The source builds `new RegExp(pattern, 'g')` from each indicator regex.
Per ES2015 semantics this rebuilds the regex from its *source* with only
the `g` flag, so the `/i` flag on the first four indicators is dropped:
all nine patterns match case-sensitively, and the first is the literal
`error:` (with the colon), not the bare token `error`. -/

/-- Worker for `countMatches`, structurally recursive on a fuel argument
so that concrete instances evaluate inside the kernel; each step consumes
at least one character, so `s.length` fuel is always enough. -/
def countMatchesAux (pat : List Char) : Nat → List Char → Nat
  | 0, _ => 0
  | _ + 1, [] => 0
  | fuel + 1, c :: rest =>
    if pat.isPrefixOf (c :: rest) ∧ pat ≠ [] then
      1 + countMatchesAux pat fuel (rest.drop (pat.length - 1))
    else countMatchesAux pat fuel rest

/-- JS `s.match(/pat/g).length` for a nonempty literal pattern: count of
non-overlapping matches, scanning left to right and resuming after each
match.  The empty pattern never occurs among the indicators. -/
def countMatches (pat s : List Char) : Nat :=
  countMatchesAux pat s.length s

/-- The nine error indicators, after the `new RegExp(p, 'g')` flag loss:
every one is a case-sensitive literal. -/
def errorPatterns : List (List Char) :=
  ["error:", "failed", "exception", "traceback", "FAILED",
   "AssertionError", "TypeError", "ImportError", "ModuleNotFoundError"].map String.toList

/-- Error score of one job log: total match count over all indicators. -/
def scoreLog (content : List Char) : Nat :=
  errorPatterns.foldl (fun acc pat => acc + countMatches pat content) 0

/-- One entry of the fetched logs: `{ jobName, content }`. -/
structure JobLog where
  jobName : List Char
  content : List Char
deriving DecidableEq, Repr

/-- The all-scores-zero fallback: every log under a `=== job ===` header,
joined by blank lines. -/
def concatAllLogs (logs : List JobLog) : List Char :=
  List.intercalate "\n\n".toList
    (logs.map (fun l => "=== ".toList ++ l.jobName ++ " ===\n".toList ++ l.content))

/-- One comparison step of the selection.  The source stably sorts the
scored logs by strictly descending score (`(a, b) => b.score - a.score`,
Node's sort is stable) and takes element 0; that is exactly a left fold
keeping the earlier log on ties. -/
def bestStep (acc l : JobLog) : JobLog :=
  if scoreLog acc.content < scoreLog l.content then l else acc

/-- `findFailingJobLog` (logs.ts): `null` on empty input; otherwise the
content of the first log attaining the maximal score when that score is
positive, else the headed concatenation of all logs. -/
def findFailingJobLog (logs : List JobLog) : Option (List Char) :=
  match logs with
  | [] => none
  | l0 :: rest =>
    let best := rest.foldl bestStep l0
    if 0 < scoreLog best.content then some best.content
    else some (concatAllLogs logs)

/-- The score exactly as claim C9 words it: non-overlapping matches of the
*case-insensitive* tokens `error`, `failed`, `exception`, `traceback` plus
the case-sensitive literals. -/
def claimScore (content : List Char) : Nat :=
  let low := content.map Char.toLower
  countMatches "error".toList low + countMatches "failed".toList low +
  countMatches "exception".toList low + countMatches "traceback".toList low +
  countMatches "FAILED".toList content + countMatches "AssertionError".toList content +
  countMatches "TypeError".toList content + countMatches "ImportError".toList content +
  countMatches "ModuleNotFoundError".toList content

/-- The localizer as claim C9 describes it, differing from the source only
in the score. -/
def findFailingJobLogClaim (logs : List JobLog) : Option (List Char) :=
  match logs with
  | [] => none
  | l0 :: rest =>
    let best := rest.foldl
      (fun acc l => if claimScore acc.content < claimScore l.content then l else acc) l0
    if 0 < claimScore best.content then some best.content
    else some (concatAllLogs logs)

/-- **C9, counterexample.**  On the single log `("job", "Error")` the claim's
case-insensitive scoring gives score 1 and predicts the bare content
`"Error"`; the code's patterns (case-sensitive, and `error:` with a colon)
all score 0, so the code returns the headed concatenation instead. -/
theorem findFailingJobLog_differs_from_claim :
    findFailingJobLog [⟨"job".toList, "Error".toList⟩] =
      some "=== job ===\nError".toList ∧
    findFailingJobLogClaim [⟨"job".toList, "Error".toList⟩] =
      some "Error".toList ∧
    findFailingJobLog [⟨"job".toList, "Error".toList⟩] ≠
      findFailingJobLogClaim [⟨"job".toList, "Error".toList⟩] := by
  refine ⟨by decide, by decide, by decide⟩

/-- Maximum score over a list of logs. -/
def maxScore (logs : List JobLog) : Nat :=
  logs.foldr (fun l m => max (scoreLog l.content) m) 0

/-- The first log whose score attains the maximum over the whole list. -/
def firstMaxLog : List JobLog → Option JobLog
  | [] => none
  | l :: ls => if maxScore ls ≤ scoreLog l.content then some l else firstMaxLog ls

/-- The localizer as amended: score by the nine case-sensitive literals
(`error:`, `failed`, `exception`, `traceback`, `FAILED`, `AssertionError`,
`TypeError`, `ImportError`, `ModuleNotFoundError`), return the first log
attaining the maximal score when positive (ties broken by input order),
the headed concatenation when all scores are zero, `null` when empty. -/
def findFailingJobLogAmendedSpec (logs : List JobLog) : Option (List Char) :=
  match firstMaxLog logs with
  | none => none
  | some best =>
    if 0 < scoreLog best.content then some best.content
    else some (concatAllLogs logs)

theorem foldl_bestStep_of_max_le {xs : List JobLog} {a : JobLog}
    (h : maxScore xs ≤ scoreLog a.content) : xs.foldl bestStep a = a := by
  induction xs with
  | nil => rfl
  | cons x xs ih =>
    have hmax : max (scoreLog x.content) (maxScore xs) ≤ scoreLog a.content := h
    have hx : ¬ scoreLog a.content < scoreLog x.content :=
      Nat.not_lt.mpr (le_trans (le_max_left _ _) hmax)
    simp only [List.foldl_cons, bestStep, if_neg hx]
    exact ih (le_trans (le_max_right _ _) hmax)

theorem firstMaxLog_eq_foldl (rest : List JobLog) (a : JobLog) :
    firstMaxLog (a :: rest) = some (rest.foldl bestStep a) := by
  induction rest generalizing a with
  | nil => simp [firstMaxLog, maxScore]
  | cons x xs ih =>
    by_cases hle : maxScore (x :: xs) ≤ scoreLog a.content
    · have hmax : max (scoreLog x.content) (maxScore xs) ≤ scoreLog a.content := hle
      have hx : ¬ scoreLog a.content < scoreLog x.content :=
        Nat.not_lt.mpr (le_trans (le_max_left _ _) hmax)
      rw [show firstMaxLog (a :: x :: xs) = some a from by simp [firstMaxLog, hle]]
      simp only [List.foldl_cons, bestStep, if_neg hx]
      rw [foldl_bestStep_of_max_le (le_trans (le_max_right _ _) hmax)]
    · have hstep : firstMaxLog (a :: x :: xs) = firstMaxLog (x :: xs) := by
        simp [firstMaxLog, hle]
      rw [hstep]
      by_cases hax : scoreLog a.content < scoreLog x.content
      · simp only [List.foldl_cons, bestStep, if_pos hax]
        exact ih x
      · -- the head `x` cannot win either; both sides reduce to the tail
        have hxs : maxScore (x :: xs) = max (scoreLog x.content) (maxScore xs) := rfl
        have hgt : scoreLog a.content < maxScore xs := by
          by_contra hcon
          exact hle (hxs ▸ max_le (Nat.not_lt.mp hax) (Nat.not_lt.mp hcon))
        have hxwin : ¬ maxScore xs ≤ scoreLog x.content :=
          Nat.not_le.mpr (lt_of_le_of_lt (Nat.not_lt.mp hax) hgt)
        have hawin : ¬ maxScore xs ≤ scoreLog a.content := Nat.not_le.mpr hgt
        have h1 : firstMaxLog (x :: xs) = firstMaxLog xs := by
          simp [firstMaxLog, hxwin]
        have h2 : firstMaxLog (a :: xs) = firstMaxLog xs := by
          simp [firstMaxLog, hawin]
        simp only [List.foldl_cons, bestStep, if_neg hax]
        rw [h1, ← h2]
        exact ih a

/-- **C9, amended.**  `findFailingJobLog` implements the amended selection:
first log attaining the maximal case-sensitive score when positive, headed
concatenation when all scores are zero, `null` on empty input. -/
theorem findFailingJobLog_eq_amendedSpec (logs : List JobLog) :
    findFailingJobLog logs = findFailingJobLogAmendedSpec logs := by
  cases logs with
  | nil => rfl
  | cons l0 rest =>
    rw [findFailingJobLogAmendedSpec, firstMaxLog_eq_foldl]
    rfl

/-! ## Log truncator (src/github/logs.ts, `truncateLog`)

Unlike the scoring above, the relevance patterns here are used directly
with `p.test(line)`, so their `/i` flags survive. -/

/-- Case-insensitive containment of a (lowercase) token in a line. -/
def containsCI (line : List Char) (tok : String) : Bool :=
  includesStr (line.map Char.toLower) tok.toList

/-- The `/file ".*", line \d+/i` test: an occurrence of `file "`, a later
occurrence of `", line ` followed by at least one digit, and no newline in
the gap matched by `.*` (letters case-insensitive; a split line never
contains a newline, the guard only mirrors `.`'s semantics). -/
def matchesFileLocation (line : List Char) : Bool :=
  let low := line.map Char.toLower
  (List.range (low.length + 1)).any (fun i =>
    "file \"".toList.isPrefixOf (low.drop i) &&
    (List.range (low.length + 1)).any (fun j =>
      decide (i + 6 ≤ j) && "\", line ".toList.isPrefixOf (low.drop j) &&
      ((low.drop (i + 6)).take (j - (i + 6))).all (fun ch => ch ≠ '\n') &&
      (match low.drop (j + 8) with
       | d :: _ => d.isDigit
       | [] => false)))

/-- A line is relevant when any of the six importance patterns matches
(`/error/i`, `/exception/i`, `/traceback/i`, `/failed/i`, `/assert/i`,
`/file ".*", line \d+/i`). -/
def isImportantLine (line : List Char) : Bool :=
  containsCI line "error" || containsCI line "exception" ||
  containsCI line "traceback" || containsCI line "failed" ||
  containsCI line "assert" || matchesFileLocation line

/-- Header of the error-relevant-sections rendering, including the blank
line of the template literal. -/
def errorSectionsHeader : List Char :=
  "[Log truncated - showing error-relevant sections]\n\n".toList

/-- Prefix and suffix of the tail-rendering header around `${maxLength}`. -/
def lastCharsHeaderPre : List Char := "[Log truncated - showing last ".toList

def lastCharsHeaderSuf : List Char := " chars]\n\n".toList

/-- `truncateLog` (logs.ts).  Input within budget is returned unchanged.
Otherwise: split into lines; collect — deduplicated and in ascending
order, exactly as the source's push/includes/sort produces — every index
within 5 before to 10 after some relevant line; join those lines.  If the
joined rendering fits the budget, return it under `errorSectionsHeader`;
otherwise return the final `maxLength` characters of the input under the
last-chars header. -/
def truncateLog (content : List Char) (maxLength : Nat) : List Char :=
  if content.length ≤ maxLength then content
  else
    let lines := content.splitOn '\n'
    let importantIndices :=
      (List.range lines.length).filter (fun i =>
        (List.range lines.length).any (fun idx =>
          isImportantLine (lines.getD idx []) && decide (idx ≤ i + 5) && decide (i ≤ idx + 10)))
    let importantContent :=
      List.intercalate "\n".toList (importantIndices.map (fun i => lines.getD i []))
    if importantContent.length ≤ maxLength then
      errorSectionsHeader ++ importantContent
    else
      -- `content.slice(-maxLength)`: JS evaluates `-0` to `0`, so a zero
      -- budget selects the entire string, not its last 0 characters
      lastCharsHeaderPre ++ (Nat.repr maxLength).toList ++ lastCharsHeaderSuf ++
        (if maxLength = 0 then content
         else content.drop (content.length - maxLength))

/-- **C8, counterexample.**  Eleven `'x'`s against a budget of 10: the
input exceeds the budget, no line is relevant, the empty relevant
rendering fits, and the returned text is the 51-character header — longer
than the budget, refuting "returns a text of length ≤ B". -/
theorem truncateLog_exceeds_budget :
    ¬ (truncateLog (List.replicate 11 'x') 10).length ≤ 10 := by decide

/-- Largest header overhead `truncateLog` can add on top of the budget. -/
def truncateSlack (maxLength : Nat) : Nat :=
  max errorSectionsHeader.length
    (lastCharsHeaderPre.length + (Nat.repr maxLength).toList.length + lastCharsHeaderSuf.length)

/-- At budget 0 the tail branch degenerates: JS `slice(-0)` is `slice(0)`
and selects the *entire* input, so the output is the header plus the whole
log and no fixed header slack bounds it (here 60 characters from a
20-character log against `0 + truncateSlack 0 = 51`). -/
theorem truncateLog_zero_budget_unbounded :
    (truncateLog "error: aaaaaaaaaaaaa".toList 0).length = 60 ∧
    ¬ (truncateLog "error: aaaaaaaaaaaaa".toList 0).length ≤
        0 + truncateSlack 0 := by
  refine ⟨by decide, by decide⟩

/-- **C8, amended.**  `truncateLog` returns the input unchanged whenever
its length is ≤ B.  For every budget B ≥ 1 it otherwise returns a text of
length at most B plus the truncation header (at most B + 51 characters for
any budget of up to twelve decimal digits, in particular for the default
B = 50,000).  For B = 0 the tail rendering keeps the entire input — JS
`slice(-0)` selects the whole string — so the output is only bounded by
the header plus the full input length. -/
theorem truncateLog_length_bound (content : List Char) (maxLength : Nat) :
    (content.length ≤ maxLength → truncateLog content maxLength = content) ∧
    (1 ≤ maxLength →
      (truncateLog content maxLength).length ≤
        maxLength + truncateSlack maxLength) ∧
    (truncateLog content maxLength).length ≤
      maxLength + truncateSlack maxLength + content.length := by
  by_cases h : content.length ≤ maxLength
  · refine ⟨fun _ => by simp [truncateLog, h], ?_, ?_⟩
    · intro _
      rw [truncateLog, if_pos h]
      omega
    · rw [truncateLog, if_pos h]
      omega
  · refine ⟨fun hc => absurd hc h, ?_⟩
    rw [truncateLog, if_neg h]
    simp only []
    split
    · next hfit =>
      have hslack := Nat.le_max_left errorSectionsHeader.length
        (lastCharsHeaderPre.length + (Nat.repr maxLength).toList.length +
          lastCharsHeaderSuf.length)
      constructor
      · intro _
        simp only [List.length_append]
        unfold truncateSlack
        omega
      · simp only [List.length_append]
        unfold truncateSlack
        omega
    · have hslack := Nat.le_max_right errorSectionsHeader.length
        (lastCharsHeaderPre.length + (Nat.repr maxLength).toList.length +
          lastCharsHeaderSuf.length)
      by_cases hz : maxLength = 0
      · rw [if_pos hz]
        constructor
        · intro h1
          exact absurd h1 (by omega)
        · simp only [List.length_append]
          unfold truncateSlack
          omega
      · rw [if_neg hz]
        have hdrop : (content.drop (content.length - maxLength)).length = maxLength := by
          rw [List.length_drop]
          omega
        constructor
        · intro _
          simp only [List.length_append, hdrop]
          unfold truncateSlack
          omega
        · simp only [List.length_append, hdrop]
          unfold truncateSlack
          omega

/-- **C8, witness** for `truncateLog_length_bound` at content `"ab"` and
budget 5. -/
theorem truncateLog_length_bound_witness :
    truncateLog "ab".toList 5 = "ab".toList ∧
    (truncateLog "ab".toList 5).length ≤ 5 + truncateSlack 5 :=
  ⟨(truncateLog_length_bound "ab".toList 5).1 (by decide),
   (truncateLog_length_bound "ab".toList 5).2.1 (by decide)⟩

/-! ## Data model (src/types.ts)

`confidence` is a JS number in [0,1]; it is modelled as `ℚ`. -/

structure FailureAnalysis where
  error_type : String
  file_path : String
  line_number : Option Int
  function_name : Option String
  error_message : String
  stack_trace : List String
  failing_test : Option String
  confidence : ℚ
  raw_log_snippet : String
deriving DecidableEq, Repr

structure GeneratedTest where
  test_code : String
  test_name : String
  target_file : String
  imports_needed : List String
deriving DecidableEq, Repr

structure ProposedFix where
  file_path : String
  original_code : String
  fixed_code : String
  explanation : String
deriving DecidableEq, Repr

/-- `test_result` is `"pass"` or `"fail"`. -/
structure FixAttempt where
  attempt_number : Nat
  proposed_fix : ProposedFix
  test_result : String
  error_output : Option String
deriving DecidableEq, Repr

structure WorkflowRun where
  id : Nat
  name : String
  head_sha : String
  head_branch : String
  conclusion : Option String
deriving DecidableEq, Repr

structure Repository where
  full_name : String
  clone_url : String
deriving DecidableEq, Repr

structure WorkflowRunPayload where
  action : String
  workflow_run : WorkflowRun
  repository : Repository
deriving DecidableEq, Repr

/-- `analysis = none` models the initial `{} as FailureAnalysis` empty
object of the source (whose `error_type` is undefined, hence falsy). -/
structure HealingResult where
  success : Bool
  run_id : Nat
  repo : String
  sha : String
  analysis : Option FailureAnalysis
  generated_test : Option GeneratedTest
  fix_attempts : List FixAttempt
  pr_url : Option String
  issue_url : Option String
  error : Option String
deriving DecidableEq, Repr

/-! ## Durable store (src/db/client.ts, src/db/schema.sql)

The three tables as in schema.sql; `created_at` / `completed_at` come from
a monotone logical clock `now` standing for CURRENT_TIMESTAMP.  `statusLog`
is a ghost observation — the `(row id, status value)` pairs in write order
of every statement that sets the `status` column — used to state temporal
properties; it is not a table. -/

structure FailureRow where
  id : Nat
  run_id : Nat
  repo : String
  sha : String
  branch : Option String
  workflow_name : Option String
  created_at : Nat
  error_type : Option String
  file_path : Option String
  line_number : Option Int
  function_name : Option String
  error_message : Option String
  failing_test : Option String
  confidence : Option ℚ
  raw_log_snippet : Option String
  status : String
  pr_url : Option String
  issue_url : Option String
  error : Option String
  completed_at : Option Nat
deriving DecidableEq, Repr

structure FixAttemptRow where
  id : Nat
  failure_id : Nat
  attempt_number : Nat
  file_path : String
  original_code : String
  fixed_code : String
  explanation : String
  test_result : String
  error_output : Option String
  created_at : Nat
deriving DecidableEq, Repr

structure GeneratedTestRow where
  id : Nat
  failure_id : Nat
  test_name : String
  test_code : String
  target_file : String
  imports_needed : List String
  created_at : Nat
deriving DecidableEq, Repr

structure DB where
  failures : List FailureRow
  fix_attempts : List FixAttemptRow
  generated_tests : List GeneratedTestRow
  nextFailureId : Nat
  nextAttemptId : Nat
  nextTestId : Nat
  now : Nat
  statusLog : List (Nat × String)
deriving DecidableEq, Repr

def emptyDB : DB :=
  { failures := [], fix_attempts := [], generated_tests := [],
    nextFailureId := 1, nextAttemptId := 1, nextTestId := 1, now := 0,
    statusLog := [] }

/-- `createFailure` (client.ts): INSERT with
`ON CONFLICT(run_id, repo) DO UPDATE SET sha, branch, workflow_name,
status = 'pending', created_at = CURRENT_TIMESTAMP`.  On conflict the
source returns `stmt.run().lastInsertRowid`, which better-sqlite3 leaves
at the connection's last actually-inserted rowid; the model returns the
conflicting row's id — in the pipeline runs proved about below the two
coincide, and `saveHealingResult` re-resolves the id by `(run_id, repo)`
anyway. -/
def DB.createFailure (db : DB) (runId : Nat) (repo sha : String)
    (branch workflowName : Option String) : DB × Nat :=
  if db.failures.any (fun r => decide (r.run_id = runId ∧ r.repo = repo)) then
    let failures := db.failures.map (fun r =>
      if r.run_id = runId ∧ r.repo = repo then
        { r with sha := sha, branch := branch, workflow_name := workflowName,
                 status := "pending", created_at := db.now }
      else r)
    let id := ((db.failures.find?
      (fun r => decide (r.run_id = runId ∧ r.repo = repo))).map (·.id)).getD 0
    ({ db with failures := failures, now := db.now + 1,
               statusLog := db.statusLog ++ [(id, "pending")] }, id)
  else
    ({ db with
        failures := db.failures ++ [{
          id := db.nextFailureId, run_id := runId, repo := repo, sha := sha,
          branch := branch, workflow_name := workflowName, created_at := db.now,
          error_type := none, file_path := none, line_number := none,
          function_name := none, error_message := none, failing_test := none,
          confidence := none, raw_log_snippet := none,
          status := "pending", pr_url := none, issue_url := none, error := none,
          completed_at := none }],
        nextFailureId := db.nextFailureId + 1, now := db.now + 1,
        statusLog := db.statusLog ++ [(db.nextFailureId, "pending")] },
      db.nextFailureId)

/-- `updateFailureStatus` (client.ts): sets `status`, sets `error` to the
given value (NULL when the caller passed nothing), and stamps
`completed_at` when the new status is `'fixed'`, `'escalated'` or
`'failed'` (the SQL CASE does not list `'not_reproduced'`). -/
def DB.updateFailureStatus (db : DB) (failureId : Nat) (status : String)
    (error : Option String) : DB :=
  { db with
    failures := db.failures.map (fun r =>
      if r.id = failureId then
        { r with status := status, error := error,
                 completed_at :=
                   if status = "fixed" ∨ status = "escalated" ∨ status = "failed"
                   then some db.now else r.completed_at }
      else r),
    now := db.now + 1,
    statusLog := db.statusLog ++ [(failureId, status)] }

/-- `updateFailureAnalysis` (client.ts): writes the analysis columns and
hard-codes `status = 'analyzing'`. -/
def DB.updateFailureAnalysis (db : DB) (failureId : Nat) (a : FailureAnalysis) : DB :=
  { db with
    failures := db.failures.map (fun r =>
      if r.id = failureId then
        { r with error_type := some a.error_type, file_path := some a.file_path,
                 line_number := a.line_number, function_name := a.function_name,
                 error_message := some a.error_message, failing_test := a.failing_test,
                 confidence := some a.confidence,
                 raw_log_snippet := some a.raw_log_snippet,
                 status := "analyzing" }
      else r),
    now := db.now + 1,
    statusLog := db.statusLog ++ [(failureId, "analyzing")] }

/-- `updateFailureOutcome` (client.ts): COALESCE the urls in, derive the
status from which url is present, stamp `completed_at`. -/
def DB.updateFailureOutcome (db : DB) (failureId : Nat)
    (prUrl issueUrl : Option String) : DB :=
  { db with
    failures := db.failures.map (fun r =>
      if r.id = failureId then
        { r with pr_url := prUrl.orElse (fun _ => r.pr_url),
                 issue_url := issueUrl.orElse (fun _ => r.issue_url),
                 status :=
                   if prUrl.isSome then "fixed"
                   else if issueUrl.isSome then "escalated" else r.status,
                 completed_at := some db.now }
      else r),
    now := db.now + 1,
    statusLog := db.statusLog ++
      (if prUrl.isSome then [(failureId, "fixed")]
       else if issueUrl.isSome then [(failureId, "escalated")] else []) }

/-- `createFixAttempt` (client.ts): plain INSERT (append-only). -/
def DB.createFixAttempt (db : DB) (failureId attemptNumber : Nat)
    (fix : ProposedFix) (testResult : String) (errorOutput : Option String) :
    DB × Nat :=
  ({ db with
      fix_attempts := db.fix_attempts ++ [{
        id := db.nextAttemptId, failure_id := failureId,
        attempt_number := attemptNumber, file_path := fix.file_path,
        original_code := fix.original_code, fixed_code := fix.fixed_code,
        explanation := fix.explanation, test_result := testResult,
        error_output := errorOutput, created_at := db.now }],
      nextAttemptId := db.nextAttemptId + 1, now := db.now + 1 },
    db.nextAttemptId)

/-- `createGeneratedTest` (client.ts): plain INSERT. -/
def DB.createGeneratedTest (db : DB) (failureId : Nat) (t : GeneratedTest) :
    DB × Nat :=
  ({ db with
      generated_tests := db.generated_tests ++ [{
        id := db.nextTestId, failure_id := failureId, test_name := t.test_name,
        test_code := t.test_code, target_file := t.target_file,
        imports_needed := t.imports_needed, created_at := db.now }],
      nextTestId := db.nextTestId + 1, now := db.now + 1 },
    db.nextTestId)

/-- `getFailureByRun` (client.ts). -/
def DB.getFailureByRun (db : DB) (runId : Nat) (repo : String) :
    Option FailureRow :=
  db.failures.find? (fun r => decide (r.run_id = runId ∧ r.repo = repo))

/-- JS truthiness of an optional string (undefined and `""` are falsy). -/
def strTruthy : Option String → Bool
  | some s => s ≠ ""
  | none => false

/-- `saveHealingResult`, step 1: resolve the failure row by
`(run_id, repo)`, creating it (sha only) when absent. -/
def DB.resolveFailure (db : DB) (result : HealingResult) : DB × Nat :=
  match db.getFailureByRun result.run_id result.repo with
  | some failure => (db, failure.id)
  | none => db.createFailure result.run_id result.repo result.sha none none

/-- `saveHealingResult`, step 2: `if (result.analysis &&
result.analysis.error_type) updateFailureAnalysis(...)`. -/
def DB.saveAnalysisPart (db : DB) (failureId : Nat) (result : HealingResult) : DB :=
  match result.analysis with
  | some a => if a.error_type ≠ "" then db.updateFailureAnalysis failureId a else db
  | none => db

/-- `saveHealingResult`, step 3: append every in-memory fix attempt. -/
def DB.saveAttemptsPart (db : DB) (failureId : Nat) (result : HealingResult) : DB :=
  result.fix_attempts.foldl
    (fun d att =>
      (d.createFixAttempt failureId att.attempt_number att.proposed_fix
        att.test_result att.error_output).1)
    db

/-- `saveHealingResult`, step 4: insert the generated test when present. -/
def DB.saveTestPart (db : DB) (failureId : Nat) (result : HealingResult) : DB :=
  match result.generated_test with
  | some t => (db.createGeneratedTest failureId t).1
  | none => db

/-- `saveHealingResult`, step 5: record the outcome urls, or — when the
result carries an error — set status `'failed'`. -/
def DB.saveOutcomePart (db : DB) (failureId : Nat) (result : HealingResult) : DB :=
  if strTruthy result.pr_url ∨ strTruthy result.issue_url then
    db.updateFailureOutcome failureId result.pr_url result.issue_url
  else if strTruthy result.error then
    db.updateFailureStatus failureId "failed" result.error
  else db

/-- `saveHealingResult` (client.ts): the five steps in source order. -/
def DB.saveHealingResult (db : DB) (result : HealingResult) : DB × Nat :=
  let step1 := db.resolveFailure result
  let failureId := step1.2
  let db2 := step1.1.saveAnalysisPart failureId result
  let db3 := db2.saveAttemptsPart failureId result
  let db4 := db3.saveTestPart failureId result
  (db4.saveOutcomePart failureId result, failureId)

/-! ## Orchestrator (src/fix-loop/orchestrator.ts)

Every external effect is an oracle supplied by the environment: the GitHub
log download, the three LLM calls, the Docker reproduction and in-workdir
test runs, and the filesystem effects of the fix loop.  A thrown JS
exception is `.error msg`; `processFailure` catches exactly where the
source has try/catch.  `cleanupWorkDir` swallows its own errors in the
source and needs no oracle. -/

structure ExecOutcome where
  exitCode : Int
  stdout : String
  stderr : String
deriving DecidableEq, Repr

structure ReproResult where
  success : Bool
  reproduced : Bool
  exitCode : Int
  stdout : String
  stderr : String
  error : Option String
  workDir : Option String
deriving DecidableEq, Repr

structure PipelineEnv where
  /-- `fetchWorkflowLogs`: a thrown error, or the per-job logs. -/
  fetchLogs : Except String (List JobLog)
  /-- `analyzeFailureLogs`, applied to the truncated log text. -/
  analyze : List Char → Except String FailureAnalysis
  /-- `reproduceFailure`. -/
  repro : Except String ReproResult
  /-- `readSourceFile` + `readExistingTests` + `generateRegressionTest`,
  collapsed into one oracle: a throw from any of them is caught by the same
  outer catch and is indistinguishable there. -/
  genTest : Except String GeneratedTest
  /-- `readSourceCode` + `generateFix` for the given attempt number,
  likewise collapsed (both throws land in the per-iteration catch). -/
  genFix : Nat → Except String ProposedFix
  /-- `applyFix` for the given attempt: a thrown fs error, or the boolean
  "was applied". -/
  applyFix : Nat → Except String Bool
  /-- `runTestsInWorkDir` for the given attempt. -/
  runTests : Nat → Except String ExecOutcome
  /-- `revertFix` for the given attempt: a thrown fs error, or the boolean
  result (which the orchestrator ignores). -/
  revertFix : Nat → Except String Bool

def MAX_FIX_ATTEMPTS : Nat := 3

/-- The synthetic fail attempt the per-iteration catch block records for a
caught exception `msg`. -/
def syntheticAttempt (analysis : FailureAnalysis) (attempt : Nat)
    (msg : String) : FixAttempt :=
  { attempt_number := attempt,
    proposed_fix := { file_path := analysis.file_path, original_code := "",
                      fixed_code := "", explanation := "Error: " ++ msg },
    test_result := "fail", error_output := some msg }

/-- One iteration of the fix loop for 1-based slot `attempt`: the records
it appends (in push order) and whether the fix was verified.  When the
tests fail and `revertFix` then throws, the normal fail record has already
been pushed, so the synthetic record joins it. -/
def runFixIteration (env : PipelineEnv) (analysis : FailureAnalysis)
    (attempt : Nat) : List FixAttempt × Bool :=
  match env.genFix attempt with
  | .error e => ([syntheticAttempt analysis attempt e], false)
  | .ok fix =>
    match env.applyFix attempt with
    | .error e => ([syntheticAttempt analysis attempt e], false)
    | .ok false =>
      ([{ attempt_number := attempt, proposed_fix := fix, test_result := "fail",
          error_output := some "Failed to apply fix - original code not found" }],
       false)
    | .ok true =>
      match env.runTests attempt with
      | .error e => ([syntheticAttempt analysis attempt e], false)
      | .ok t =>
        if t.exitCode = 0 then
          ([{ attempt_number := attempt, proposed_fix := fix,
              test_result := "pass", error_output := none }], true)
        else
          let failRec : FixAttempt :=
            { attempt_number := attempt, proposed_fix := fix,
              test_result := "fail", error_output := some t.stderr }
          match env.revertFix attempt with
          | .error e => ([failRec, syntheticAttempt analysis attempt e], false)
          | .ok _ => ([failRec], false)

/-- The fix loop `for (attempt = 1; attempt <= MAX_FIX_ATTEMPTS; attempt++)`
with early break on a verified fix; `fuel` counts the remaining slots. -/
def runFixLoop (env : PipelineEnv) (analysis : FailureAnalysis) :
    Nat → Nat → List FixAttempt → List FixAttempt × Bool
  | _, 0, acc => (acc, false)
  | attempt, fuel + 1, acc =>
    let step := runFixIteration env analysis attempt
    if step.2 then (acc ++ step.1, true)
    else runFixLoop env analysis (attempt + 1) fuel (acc ++ step.1)

/-- `processFailure` (orchestrator.ts): the whole pipeline, threading the
durable store.  Intermediate status writes are observable through the
store's ghost `statusLog`. -/
def processFailure (env : PipelineEnv) (payload : WorkflowRunPayload)
    (db0 : DB) : HealingResult × DB :=
  let runId := payload.workflow_run.id
  let sha := payload.workflow_run.head_sha
  let repo := payload.repository.full_name
  let base : HealingResult :=
    { success := false, run_id := runId, repo := repo, sha := sha,
      analysis := none, generated_test := none, fix_attempts := [],
      pr_url := none, issue_url := none, error := none }
  let created := db0.createFailure runId repo sha
    (some payload.workflow_run.head_branch) (some payload.workflow_run.name)
  let failureId := created.2
  -- try {
  let db1 := created.1.updateFailureStatus failureId "fetching_logs" none
  match env.fetchLogs with
  | .error e =>
    ({ base with error := some e },
     db1.updateFailureStatus failureId "failed" (some e))
  | .ok logs =>
    if logs.isEmpty then
      ({ base with error := some "No logs available for this workflow run" }, db1)
    else
      match findFailingJobLog logs with
      | none =>
        ({ base with error := some "Could not identify failing job in logs" }, db1)
      | some failingLog =>
        -- `if (!failingLog)`: the empty string is falsy too
        if failingLog.isEmpty then
          ({ base with error := some "Could not identify failing job in logs" }, db1)
        else
          let truncated := truncateLog failingLog 50000
          let db2 := db1.updateFailureStatus failureId "analyzing" none
          match env.analyze truncated with
          | .error e =>
            ({ base with error := some e },
             db2.updateFailureStatus failureId "failed" (some e))
          | .ok analysis =>
            let res1 := { base with analysis := some analysis }
            let db3 := db2.updateFailureAnalysis failureId analysis
            if analysis.confidence < mkRat 3 10 then
              ({ res1 with
                  error := some "Low confidence analysis - escalating to human" },
               db3)
            else
              let db4 := db3.updateFailureStatus failureId "reproducing" none
              match env.repro with
              | .error e =>
                ({ res1 with error := some e },
                 db4.updateFailureStatus failureId "failed" (some e))
              | .ok repro =>
                if repro.success = false then
                  let msg := "Reproduction failed: " ++ repro.error.getD "undefined"
                  ({ res1 with error := some msg },
                   db4.updateFailureStatus failureId "failed" (some msg))
                else if repro.reproduced = false then
                  ({ res1 with
                      error := some "Failure did not reproduce - tests passed in sandbox" },
                   db4.updateFailureStatus failureId "not_reproduced" none)
                else
                  let db5 := db4.updateFailureStatus failureId "generating_test" none
                  match env.genTest with
                  | .error e =>
                    ({ res1 with error := some e },
                     db5.updateFailureStatus failureId "failed" (some e))
                  | .ok generatedTest =>
                    let res2 := { res1 with generated_test := some generatedTest }
                    let db6 := db5.updateFailureStatus failureId "fixing" none
                    let loopOut := runFixLoop env analysis 1 MAX_FIX_ATTEMPTS []
                    let res3 := { res2 with fix_attempts := loopOut.1 }
                    let res4 :=
                      if loopOut.2 then { res3 with success := true }
                      else { res3 with
                              error := some "Failed to fix after 3 attempts" }
                    let db7 :=
                      if loopOut.2 then
                        ((db6.updateFailureStatus failureId "creating_pr" none).updateFailureStatus
                          failureId "fixed" none)
                      else db6.updateFailureStatus failureId "escalated" none
                    -- cleanupWorkDir, then saveHealingResult(result)
                    (res4, (db7.saveHealingResult res4).1)

/-! ## Concrete pipeline runs -/

/-- A one-job fetched log whose text carries a scoring indicator. -/
def sampleLog : JobLog := ⟨"build".toList, "error: boom".toList⟩

def samplePayload : WorkflowRunPayload :=
  { action := "completed",
    workflow_run := { id := 1001, name := "CI", head_sha := "a1b2",
                      head_branch := "main", conclusion := some "failure" },
    repository := { full_name := "acme/x", clone_url := "https://g/acme/x.git" } }

def lowAnalysis : FailureAnalysis :=
  { error_type := "Other", file_path := "unknown", line_number := none,
    function_name := none, error_message := "unclear", stack_trace := [],
    failing_test := none, confidence := mkRat 1 10, raw_log_snippet := "" }

/-- Environment of scenario S4: the analysis comes back with confidence
0.1; everything past the gate is unreachable. -/
def lowConfidenceEnv : PipelineEnv :=
  { fetchLogs := .ok [sampleLog],
    analyze := fun _ => .ok lowAnalysis,
    repro := .error "unreachable",
    genTest := .error "unreachable",
    genFix := fun _ => .error "unreachable",
    applyFix := fun _ => .error "unreachable",
    runTests := fun _ => .error "unreachable",
    revertFix := fun _ => .error "unreachable" }

def happyAnalysis : FailureAnalysis :=
  { error_type := "TypeError", file_path := "src/payment/processor.py",
    line_number := some 42, function_name := some "process_payment",
    error_message := "'NoneType' object has no attribute 'amount'",
    stack_trace := [], failing_test := some "test_process_payment",
    confidence := mkRat 92 100, raw_log_snippet := "TypeError: ..." }

def happyFix : ProposedFix :=
  { file_path := "src/payment/processor.py",
    original_code := "return None", fixed_code := "return amount",
    explanation := "Return the amount" }

def happyTest : GeneratedTest :=
  { test_code := "def test_process_payment_none(): pass",
    test_name := "test_process_payment_none",
    target_file := "tests/test_processor.py",
    imports_needed := ["process_payment"] }

/-- Environment of scenario S1: reproduction succeeds, the first fix
attempt verifies. -/
def happyEnv : PipelineEnv :=
  { fetchLogs := .ok [sampleLog],
    analyze := fun _ => .ok happyAnalysis,
    repro := .ok { success := true, reproduced := true, exitCode := 1,
                   stdout := "", stderr := "FAILED tests", error := none,
                   workDir := some "/tmp/nightwatch/run-1001" },
    genTest := .ok happyTest,
    genFix := fun _ => .ok happyFix,
    applyFix := fun _ => .ok true,
    runTests := fun _ => .ok { exitCode := 0, stdout := "ok", stderr := "" },
    revertFix := fun _ => .ok true }

/-- **C1 (code bug).**  With a confidence-0.1 analysis the pipeline indeed
never writes status `'reproducing'` — but it never writes `'escalated'`
either: it returns carrying only the low-confidence error message on the
in-memory result (`// TODO: Create escalation issue`), and the failure row
is left in `'analyzing'`. -/
theorem lowConfidence_skips_reproduction_but_never_escalates :
    ((processFailure lowConfidenceEnv samplePayload emptyDB).2.statusLog.map
        Prod.snd).contains "reproducing" = false ∧
    ((processFailure lowConfidenceEnv samplePayload emptyDB).2.statusLog.map
        Prod.snd).contains "escalated" = false ∧
    ((processFailure lowConfidenceEnv samplePayload emptyDB).2.getFailureByRun
        1001 "acme/x").map (·.status) = some "analyzing" ∧
    (processFailure lowConfidenceEnv samplePayload emptyDB).1.error =
      some "Low confidence analysis - escalating to human" := by
  refine ⟨by decide, by decide, by decide, by decide⟩

/-- **C2 (code bug).**  A run whose fix verifies on attempt 1 writes the
terminal status `'fixed'` — and the final `saveHealingResult` then
re-applies the analysis columns to the same row, resetting its status to
`'analyzing'`: a pipeline write after the terminal state, without any
re-ingestion. -/
theorem terminal_status_overwritten_after_fixed :
    ((processFailure happyEnv samplePayload emptyDB).2.statusLog.map
        Prod.snd).contains "fixed" = true ∧
    (processFailure happyEnv samplePayload emptyDB).2.statusLog.getLast? =
      some (1, "analyzing") ∧
    ((processFailure happyEnv samplePayload emptyDB).2.getFailureByRun
        1001 "acme/x").map (·.status) = some "analyzing" := by
  refine ⟨by decide, by decide, by decide⟩

/-! ## Fix-loop invariants -/

/-- Whether the iteration for the given attempt slot catches a JS
exception — exactly when `runFixIteration` appends a synthetic record. -/
def iterCaught (env : PipelineEnv) (attempt : Nat) : Bool :=
  match env.genFix attempt with
  | .error _ => true
  | .ok _ =>
    match env.applyFix attempt with
    | .error _ => true
    | .ok false => false
    | .ok true =>
      match env.runTests attempt with
      | .error _ => true
      | .ok t =>
        if t.exitCode = 0 then false
        else
          match env.revertFix attempt with
          | .error _ => true
          | .ok _ => false

/-- Number of attempt slots whose iteration catches an exception. -/
def caughtCount (env : PipelineEnv) : Nat :=
  (List.range' 1 MAX_FIX_ATTEMPTS).countP (fun n => iterCaught env n)

/-- Shape facts about one fix-loop iteration: every record carries the
slot's attempt number; a verified iteration contributes exactly one record
and it is a pass; an unverified iteration contributes only fail records;
and an iteration contributes at most one record plus one more when it
catches an exception. -/
theorem runFixIteration_cases (env : PipelineEnv) (analysis : FailureAnalysis)
    (attempt : Nat) :
    (∀ r ∈ (runFixIteration env analysis attempt).1, r.attempt_number = attempt) ∧
    ((runFixIteration env analysis attempt).2 = true →
      ∃ r, (runFixIteration env analysis attempt).1 = [r] ∧
        r.test_result = "pass") ∧
    ((runFixIteration env analysis attempt).2 = false →
      ∀ r ∈ (runFixIteration env analysis attempt).1, r.test_result = "fail") ∧
    (runFixIteration env analysis attempt).1.length ≤
      1 + (if iterCaught env attempt then 1 else 0) := by
  unfold runFixIteration iterCaught
  cases hg : env.genFix attempt with
  | error e => simp [syntheticAttempt]
  | ok fix =>
    cases ha : env.applyFix attempt with
    | error e => simp [syntheticAttempt]
    | ok b =>
      cases b with
      | false => simp
      | true =>
        cases ht : env.runTests attempt with
        | error e => simp [syntheticAttempt]
        | ok t =>
          by_cases hexit : t.exitCode = 0
          · simp [hexit]
          · cases hr : env.revertFix attempt with
            | error e => simp [hexit, syntheticAttempt]
            | ok b' => simp [hexit]

/-- Length of the loop output, counting one slot per remaining fuel plus
one synthetic record per caught exception among those slots. -/
theorem runFixLoop_length_le (env : PipelineEnv) (analysis : FailureAnalysis) :
    ∀ (fuel attempt : Nat) (acc : List FixAttempt),
      (runFixLoop env analysis attempt fuel acc).1.length ≤
        acc.length + fuel +
          (List.range' attempt fuel).countP (fun n => iterCaught env n) := by
  intro fuel
  induction fuel with
  | zero => intro attempt acc; simp [runFixLoop]
  | succ fuel ih =>
    intro attempt acc
    have hlen := (runFixIteration_cases env analysis attempt).2.2.2
    have hcons : (List.range' attempt (fuel + 1)).countP (fun n => iterCaught env n) =
        (List.range' (attempt + 1) fuel).countP (fun n => iterCaught env n) +
          (if iterCaught env attempt then 1 else 0) := by
      rw [List.range'_succ, List.countP_cons]
    by_cases hstep : (runFixIteration env analysis attempt).2 = true
    · rw [show runFixLoop env analysis attempt (fuel + 1) acc =
          (acc ++ (runFixIteration env analysis attempt).1, true) from by
        simp [runFixLoop, hstep]]
      simp only [List.length_append]
      have h0 := List.countP_le_length
        (p := fun n => iterCaught env n) (l := List.range' (attempt + 1) fuel)
      by_cases hcaught : iterCaught env attempt <;> simp [hcaught] at hlen hcons <;> omega
    · rw [show runFixLoop env analysis attempt (fuel + 1) acc =
          runFixLoop env analysis (attempt + 1) fuel
            (acc ++ (runFixIteration env analysis attempt).1) from by
        simp [runFixLoop, hstep]]
      have hih := ih (attempt + 1) (acc ++ (runFixIteration env analysis attempt).1)
      simp only [List.length_append] at hih
      by_cases hcaught : iterCaught env attempt <;> simp [hcaught] at hlen hcons <;> omega

/-- **C3.**  The fix loop runs at most `MAX_FIX_ATTEMPTS = 3` slots; it
records at most one verdict record per slot plus one synthetic fail record
per caught exception, so the attempt records of one run number at most
3 + (number of slots that caught an exception) ≤ 6. -/
theorem fixLoop_attempt_records_bounded (env : PipelineEnv)
    (analysis : FailureAnalysis) :
    (runFixLoop env analysis 1 MAX_FIX_ATTEMPTS []).1.length ≤
      MAX_FIX_ATTEMPTS + caughtCount env ∧
    caughtCount env ≤ MAX_FIX_ATTEMPTS := by
  constructor
  · have := runFixLoop_length_le env analysis MAX_FIX_ATTEMPTS 1 []
    simpa [caughtCount] using this
  · have := List.countP_le_length
      (p := fun n => iterCaught env n) (l := List.range' 1 MAX_FIX_ATTEMPTS)
    simpa [caughtCount] using this

/-- The pass structure of the loop output, from any pass-free accumulator:
at most one pass record, and a pass record is the last one recorded and
carries the maximal attempt number. -/
theorem runFixLoop_pass_invariant (env : PipelineEnv) (analysis : FailureAnalysis) :
    ∀ (fuel attempt : Nat) (acc : List FixAttempt),
      (∀ r ∈ acc, r.test_result ≠ "pass") →
      (∀ r ∈ acc, r.attempt_number < attempt) →
      (((runFixLoop env analysis attempt fuel acc).1.filter
          (fun r => r.test_result == "pass")).length ≤ 1) ∧
      (∀ r ∈ (runFixLoop env analysis attempt fuel acc).1,
        r.test_result = "pass" →
          (runFixLoop env analysis attempt fuel acc).1.getLast? = some r ∧
          ∀ b ∈ (runFixLoop env analysis attempt fuel acc).1,
            b.attempt_number ≤ r.attempt_number) := by
  intro fuel
  induction fuel with
  | zero =>
    intro attempt acc hpass _
    constructor
    · rw [show runFixLoop env analysis attempt 0 acc = (acc, false) from rfl]
      rw [List.filter_eq_nil_iff.mpr (by intro r hr; simpa using hpass r hr)]
      simp
    · intro r hr hp
      exact absurd hp (hpass r (by simpa [runFixLoop] using hr))
  | succ fuel ih =>
    intro attempt acc hpass hnum
    obtain ⟨hnums, hpassone, hfails, _⟩ := runFixIteration_cases env analysis attempt
    by_cases hstep : (runFixIteration env analysis attempt).2 = true
    · obtain ⟨r0, hr0, hr0p⟩ := hpassone hstep
      rw [show runFixLoop env analysis attempt (fuel + 1) acc =
          (acc ++ (runFixIteration env analysis attempt).1, true) from by
        simp [runFixLoop, hstep]]
      rw [hr0] at hnums ⊢
      have hr0num : r0.attempt_number = attempt := hnums r0 (by simp)
      constructor
      · rw [List.filter_append,
          List.filter_eq_nil_iff.mpr (by intro r hr; simpa using hpass r hr)]
        simp [hr0p]
      · intro r hr hp
        rcases List.mem_append.mp hr with hracc | hrnew
        · exact absurd hp (hpass r hracc)
        · have hrr : r = r0 := by simpa using hrnew
          rw [hrr]
          refine ⟨List.getLast?_concat _, ?_⟩
          intro b hb
          rcases List.mem_append.mp hb with hbacc | hbnew
          · have := hnum b hbacc; omega
          · have hbb : b = r0 := by simpa using hbnew
            rw [hbb]
    · rw [show runFixLoop env analysis attempt (fuel + 1) acc =
          runFixLoop env analysis (attempt + 1) fuel
            (acc ++ (runFixIteration env analysis attempt).1) from by
        simp [runFixLoop, hstep]]
      have hstep' : (runFixIteration env analysis attempt).2 = false := by
        simpa using hstep
      apply ih (attempt + 1)
      · intro r hr
        rcases List.mem_append.mp hr with hracc | hrnew
        · exact hpass r hracc
        · rw [hfails hstep' r hrnew]; decide
      · intro r hr
        rcases List.mem_append.mp hr with hracc | hrnew
        · have := hnum r hracc; omega
        · have := hnums r hrnew; omega

/-- **C4, amended.**  Within the attempts recorded by a single run of the
fix loop, at most one has verdict `pass`; and a pass record is the last
one recorded and bears the maximal attempt number (the loop breaks right
after recording it). -/
theorem fixLoop_single_pass_is_final (env : PipelineEnv)
    (analysis : FailureAnalysis) :
    (((runFixLoop env analysis 1 MAX_FIX_ATTEMPTS []).1.filter
        (fun r => r.test_result == "pass")).length ≤ 1) ∧
    (∀ r ∈ (runFixLoop env analysis 1 MAX_FIX_ATTEMPTS []).1,
      r.test_result = "pass" →
        (runFixLoop env analysis 1 MAX_FIX_ATTEMPTS []).1.getLast? = some r ∧
        ∀ b ∈ (runFixLoop env analysis 1 MAX_FIX_ATTEMPTS []).1,
          b.attempt_number ≤ r.attempt_number) :=
  runFixLoop_pass_invariant env analysis MAX_FIX_ATTEMPTS 1 []
    (by simp) (by simp)

/-- The single (passing) attempt record of `happyEnv`'s run. -/
def happyPassAttempt : FixAttempt :=
  { attempt_number := 1, proposed_fix := happyFix, test_result := "pass",
    error_output := none }

/-- **C4, witness** for `fixLoop_single_pass_is_final`: in the happy-path
run the pass record is the last (and only) one. -/
theorem fixLoop_single_pass_is_final_witness :
    (runFixLoop happyEnv happyAnalysis 1 MAX_FIX_ATTEMPTS []).1.getLast? =
      some happyPassAttempt :=
  ((fixLoop_single_pass_is_final happyEnv happyAnalysis).2
    happyPassAttempt (by decide) (by decide)).1

/-- **C4, counterexample.**  Replay: the same event processed twice (both
runs verifying the fix on attempt 1) leaves ONE failure row but TWO
attempt rows with verdict `pass` attached to it, both numbered 1 — in the
store, a pass attempt of a failure is neither unique nor strictly
highest-numbered once the pipeline is re-driven by re-ingestion. -/
theorem replay_duplicates_pass_attempts :
    ((processFailure happyEnv samplePayload
        (processFailure happyEnv samplePayload emptyDB).2).2.failures.length = 1) ∧
    (((processFailure happyEnv samplePayload
        (processFailure happyEnv samplePayload emptyDB).2).2.fix_attempts.filter
        (fun r => r.failure_id == 1 && r.test_result == "pass")).length = 2) ∧
    (((processFailure happyEnv samplePayload
        (processFailure happyEnv samplePayload emptyDB).2).2.fix_attempts.map
        (·.attempt_number)) = [1, 1]) := by
  refine ⟨by decide, by decide, by decide⟩

/-! ## Store lemmas: which operations touch the `fix_attempts` table -/

theorem createFailure_fix_attempts (db : DB) (runId : Nat) (repo sha : String)
    (b w : Option String) :
    (db.createFailure runId repo sha b w).1.fix_attempts = db.fix_attempts := by
  unfold DB.createFailure
  split <;> rfl

theorem updateFailureStatus_fix_attempts (db : DB) (id : Nat) (s : String)
    (e : Option String) :
    (db.updateFailureStatus id s e).fix_attempts = db.fix_attempts := rfl

theorem updateFailureAnalysis_fix_attempts (db : DB) (id : Nat)
    (a : FailureAnalysis) :
    (db.updateFailureAnalysis id a).fix_attempts = db.fix_attempts := rfl

theorem updateFailureOutcome_fix_attempts (db : DB) (id : Nat)
    (pr issue : Option String) :
    (db.updateFailureOutcome id pr issue).fix_attempts = db.fix_attempts := rfl

theorem createGeneratedTest_fix_attempts (db : DB) (id : Nat) (t : GeneratedTest) :
    (db.createGeneratedTest id t).1.fix_attempts = db.fix_attempts := rfl

theorem resolveFailure_fix_attempts (db : DB) (res : HealingResult) :
    (db.resolveFailure res).1.fix_attempts = db.fix_attempts := by
  unfold DB.resolveFailure
  split
  · rfl
  · exact createFailure_fix_attempts ..

theorem saveAnalysisPart_fix_attempts (db : DB) (fid : Nat) (res : HealingResult) :
    (db.saveAnalysisPart fid res).fix_attempts = db.fix_attempts := by
  unfold DB.saveAnalysisPart
  split
  · split <;> rfl
  · rfl

theorem saveTestPart_fix_attempts (db : DB) (fid : Nat) (res : HealingResult) :
    (db.saveTestPart fid res).fix_attempts = db.fix_attempts := by
  unfold DB.saveTestPart
  split <;> rfl

theorem saveOutcomePart_fix_attempts (db : DB) (fid : Nat) (res : HealingResult) :
    (db.saveOutcomePart fid res).fix_attempts = db.fix_attempts := by
  unfold DB.saveOutcomePart
  split
  · rfl
  · split <;> rfl

theorem saveAttemptsPart_length (res : HealingResult) :
    ∀ (db : DB) (fid : Nat),
      (db.saveAttemptsPart fid res).fix_attempts.length =
        db.fix_attempts.length + res.fix_attempts.length := by
  unfold DB.saveAttemptsPart
  generalize res.fix_attempts = l
  induction l with
  | nil => intro db fid; simp
  | cons att l ih =>
    intro db fid
    rw [List.foldl_cons, ih]
    simp [DB.createFixAttempt]
    omega

/-- `saveHealingResult` appends exactly the in-memory attempt records. -/
theorem saveHealingResult_fix_attempts_length (db : DB) (res : HealingResult) :
    (db.saveHealingResult res).1.fix_attempts.length =
      db.fix_attempts.length + res.fix_attempts.length := by
  unfold DB.saveHealingResult
  rw [saveOutcomePart_fix_attempts, saveTestPart_fix_attempts,
    saveAttemptsPart_length, saveAnalysisPart_fix_attempts,
    resolveFailure_fix_attempts]

/-- **C3 (store level).**  A single pipeline run appends at most
`MAX_FIX_ATTEMPTS + caughtCount env ≤ 6` rows to the `fix_attempts`
table: the loop's records, persisted once by `saveHealingResult`. -/
theorem processFailure_attempt_rows (env : PipelineEnv)
    (payload : WorkflowRunPayload) (db : DB) :
    (processFailure env payload db).2.fix_attempts.length ≤
      db.fix_attempts.length + MAX_FIX_ATTEMPTS + caughtCount env := by
  simp only [processFailure]
  repeat' split
  all_goals
    simp only [saveHealingResult_fix_attempts_length,
      updateFailureStatus_fix_attempts, updateFailureAnalysis_fix_attempts,
      createFailure_fix_attempts]
  all_goals
    first
    | omega
    | (have hlp := (fixLoop_attempt_records_bounded env ‹FailureAnalysis›).1
       omega)

/-! ## Idempotent ingestion (C6) -/

theorem find?_append_of_none {α : Type} (p : α → Bool) {l1 : List α}
    (l2 : List α) (h : l1.find? p = none) :
    (l1 ++ l2).find? p = l2.find? p := by
  induction l1 with
  | nil => rfl
  | cons a l ih =>
    by_cases hpa : p a
    · rw [List.find?_cons_of_pos _ hpa] at h
      exact absurd h (by simp)
    · rw [List.find?_cons_of_neg _ hpa] at h
      rw [List.cons_append, List.find?_cons_of_neg _ hpa]
      exact ih h

theorem find?_isSome_of_any {α : Type} (p : α → Bool) {l : List α}
    (h : l.any p = true) : ∃ r, l.find? p = some r := by
  induction l with
  | nil => simp at h
  | cons a l ih =>
    by_cases hpa : p a
    · exact ⟨a, List.find?_cons_of_pos _ hpa⟩
    · rw [List.find?_cons_of_neg _ hpa]
      exact ih (by simpa [hpa] using h)

/-- `find?` by key commutes with a key-preserving conditional update. -/
theorem find?_key_map_update (runId : Nat) (repo : String)
    (f : FailureRow → FailureRow)
    (hf : ∀ r, (f r).run_id = r.run_id ∧ (f r).repo = r.repo) :
    ∀ l : List FailureRow,
      (l.map (fun r => if r.run_id = runId ∧ r.repo = repo then f r else r)).find?
        (fun r => decide (r.run_id = runId ∧ r.repo = repo)) =
      (l.find? (fun r => decide (r.run_id = runId ∧ r.repo = repo))).map f := by
  intro l
  induction l with
  | nil => rfl
  | cons r l ih =>
    by_cases hr : r.run_id = runId ∧ r.repo = repo
    · have hpf : (decide ((f r).run_id = runId ∧ (f r).repo = repo)) = true := by
        rcases hf r with ⟨h1, h2⟩
        rw [h1, h2]
        exact decide_eq_true hr
      simp only [List.map_cons, if_pos hr]
      rw [@List.find?_cons_of_pos _ (fun r => decide (r.run_id = runId ∧ r.repo = repo))
          (f r) _ hpf,
        @List.find?_cons_of_pos _ (fun r => decide (r.run_id = runId ∧ r.repo = repo))
          r _ (decide_eq_true hr)]
      rfl
    · have hpr : (decide (r.run_id = runId ∧ r.repo = repo)) = false := by
        simpa using hr
      simp only [List.map_cons, if_neg hr]
      rw [@List.find?_cons_of_neg _ (fun r => decide (r.run_id = runId ∧ r.repo = repo))
          r _ (by simp [hpr]),
        @List.find?_cons_of_neg _ (fun r => decide (r.run_id = runId ∧ r.repo = repo))
          r _ (by simp [hpr])]
      exact ih

/-- Whether a failure row with the `(run_id, repo)` key exists. -/
def DB.hasKey (db : DB) (runId : Nat) (repo : String) : Bool :=
  db.failures.any (fun r => decide (r.run_id = runId ∧ r.repo = repo))

theorem createFailure_length_of_hasKey {db : DB} {runId : Nat} {repo : String}
    (sha : String) (b w : Option String) (h : db.hasKey runId repo = true) :
    (db.createFailure runId repo sha b w).1.failures.length =
      db.failures.length := by
  unfold DB.hasKey at h
  unfold DB.createFailure
  rw [if_pos h]
  simp

theorem createFailure_find_of_hasKey {db : DB} {runId : Nat} {repo : String}
    (sha : String) (b w : Option String) (h : db.hasKey runId repo = true) :
    (db.createFailure runId repo sha b w).1.getFailureByRun runId repo =
      (db.getFailureByRun runId repo).map (fun r =>
        { r with sha := sha, branch := b, workflow_name := w,
                 status := "pending", created_at := db.now }) := by
  unfold DB.hasKey at h
  unfold DB.createFailure DB.getFailureByRun
  rw [if_pos h]
  dsimp only
  exact find?_key_map_update runId repo
    (fun r => { r with sha := sha, branch := b, workflow_name := w,
                       status := "pending", created_at := db.now })
    (fun r => ⟨rfl, rfl⟩) db.failures

/-- After any `createFailure`, a row with the key exists. -/
theorem createFailure_hasKey (db : DB) (runId : Nat) (repo sha : String)
    (b w : Option String) :
    (db.createFailure runId repo sha b w).1.hasKey runId repo = true := by
  unfold DB.createFailure DB.hasKey
  by_cases hc : db.failures.any (fun r => decide (r.run_id = runId ∧ r.repo = repo))
  · rw [if_pos hc]
    dsimp only
    obtain ⟨r, hmem, hpr⟩ := List.any_eq_true.mp hc
    have hr : r.run_id = runId ∧ r.repo = repo := of_decide_eq_true hpr
    refine List.any_eq_true.mpr ⟨_, List.mem_map_of_mem _ hmem, ?_⟩
    simp only [if_pos hr]
    exact decide_eq_true ⟨hr.1, hr.2⟩
  · rw [if_neg hc]
    dsimp only
    refine List.any_eq_true.mpr
      ⟨_, List.mem_append_right _ (List.mem_singleton.mpr rfl), ?_⟩
    simp

/-- **C6.**  `createFailure` is idempotent under the `(run_id, repo)`
unique key: a second ingestion of the same pair creates no second row; it
rewrites the existing row in place — same id, analysis and outcome columns
untouched — with the new sha, branch, workflow name and a fresh creation
stamp, and resets its status to `'pending'`. -/
theorem createFailure_idempotent (db : DB) (runId : Nat)
    (repo sha1 sha2 : String) (b1 b2 w1 w2 : Option String) :
    ((db.createFailure runId repo sha1 b1 w1).1.createFailure
        runId repo sha2 b2 w2).1.failures.length =
      (db.createFailure runId repo sha1 b1 w1).1.failures.length ∧
    ∃ r1,
      (db.createFailure runId repo sha1 b1 w1).1.getFailureByRun runId repo =
        some r1 ∧
      ((db.createFailure runId repo sha1 b1 w1).1.createFailure
          runId repo sha2 b2 w2).1.getFailureByRun runId repo =
        some { r1 with sha := sha2, branch := b2, workflow_name := w2,
                       status := "pending",
                       created_at :=
                         (db.createFailure runId repo sha1 b1 w1).1.now } := by
  have hkey1 := createFailure_hasKey db runId repo sha1 b1 w1
  obtain ⟨r1, hr1⟩ := find?_isSome_of_any _ hkey1
  refine ⟨createFailure_length_of_hasKey sha2 b2 w2 hkey1, r1, hr1, ?_⟩
  rw [createFailure_find_of_hasKey sha2 b2 w2 hkey1]
  rw [show (db.createFailure runId repo sha1 b1 w1).1.getFailureByRun runId repo =
      some r1 from hr1]
  rfl

/-! ## Webhook surface (src/webhook/validator.ts, src/webhook/handler.ts)

The HMAC-SHA-256 primitive is an oracle `hmac secret body` returning the
hex digest.  The validator compares the signature header against
`'sha256=' ++ hmac secret body` with `crypto.timingSafeEqual`, which
**throws** when the two buffers differ in length (modelled `.error ()`) and
otherwise performs the constant-time byte comparison — constant-timeness
itself is outside the model.  An exception thrown there escapes the async
Express 4 handler before any response is written. -/

structure WebhookRequest where
  /-- the `x-hub-signature-256` header. -/
  signature : Option String
  /-- the `x-github-event` header. -/
  event : Option String
  /-- the parsed JSON body. -/
  payload : WorkflowRunPayload
  /-- `JSON.stringify(req.body)`, over which the digest is computed. -/
  body : String
deriving Repr

/-- `validateGitHubWebhook` (validator.ts). -/
def validateGitHubWebhook (hmac : String → String → String)
    (req : WebhookRequest) (secret : String) : Except Unit Bool :=
  match req.signature with
  | none => .ok false
  | some sig =>
    let digest := "sha256=" ++ hmac secret req.body
    if sig.length ≠ digest.length then .error ()
    else .ok (sig = digest)

structure HandlerOutcome where
  /-- HTTP (status, message) sent; `none` when the handler threw before
  responding. -/
  response : Option (Nat × String)
  db : DB
  /-- whether `processFailure` was invoked. -/
  started : Bool
deriving Repr

/-- The event/action/conclusion filter and dispatch of `handleWebhook`
(handler.ts) past signature validation. -/
def handleWebhookBody (env : PipelineEnv) (req : WebhookRequest) (db : DB) :
    HandlerOutcome :=
  if req.event ≠ some "workflow_run" then
    ⟨some (200, "Event ignored"), db, false⟩
  else if req.payload.action ≠ "completed" then
    ⟨some (200, "Action ignored"), db, false⟩
  else if req.payload.workflow_run.conclusion ≠ some "failure" then
    ⟨some (200, "Conclusion ignored"), db, false⟩
  else
    ⟨some (202, "Processing failure"), (processFailure env req.payload db).2, true⟩

/-- `handleWebhook` (handler.ts): signature validation first (skipped when
no secret is configured), then the filter. -/
def handleWebhook (env : PipelineEnv) (hmac : String → String → String)
    (secret : Option String) (req : WebhookRequest) (db : DB) : HandlerOutcome :=
  match secret with
  | some s =>
    match validateGitHubWebhook hmac req s with
    | .error _ => ⟨none, db, false⟩
    | .ok false => ⟨some (401, "Invalid signature"), db, false⟩
    | .ok true => handleWebhookBody env req db
  | none => handleWebhookBody env req db

/-- A stand-in digest oracle for concrete runs. -/
def dummyHmac : String → String → String := fun _ _ => "d"

/-- A non-`completed` event carried by a request without a signature. -/
def ignoredReq : WebhookRequest :=
  { signature := none, event := some "workflow_run",
    payload := { samplePayload with action := "opened" }, body := "x" }

/-- **C7, counterexample.**  A request with action ≠ 'completed' is *not*
always acknowledged as ignored: with a secret configured and no (or a
mismatching) signature the handler answers 401 before the filter runs.  No
failure row is created either way. -/
theorem webhook_filtered_event_rejected_not_acknowledged :
    ignoredReq.payload.action ≠ "completed" ∧
    (handleWebhook lowConfidenceEnv dummyHmac (some "s") ignoredReq
        emptyDB).response = some (401, "Invalid signature") ∧
    (handleWebhook lowConfidenceEnv dummyHmac (some "s") ignoredReq
        emptyDB).started = false := by
  refine ⟨by decide, by decide, by decide⟩

theorem handleWebhookBody_filtered (env : PipelineEnv) (req : WebhookRequest)
    (db : DB)
    (h : req.payload.action ≠ "completed" ∨
         req.payload.workflow_run.conclusion ≠ some "failure") :
    (handleWebhookBody env req db).started = false ∧
    (handleWebhookBody env req db).db = db ∧
    ∃ m, (handleWebhookBody env req db).response = some (200, m) := by
  unfold handleWebhookBody
  by_cases he : req.event ≠ some "workflow_run"
  · rw [if_pos he]
    exact ⟨rfl, rfl, "Event ignored", rfl⟩
  · rw [if_neg he]
    by_cases ha : req.payload.action ≠ "completed"
    · rw [if_pos ha]
      exact ⟨rfl, rfl, "Action ignored", rfl⟩
    · rw [if_neg ha]
      have hc : req.payload.workflow_run.conclusion ≠ some "failure" := by
        rcases h with h | h
        · exact absurd h ha
        · exact h
      rw [if_pos hc]
      exact ⟨rfl, rfl, "Conclusion ignored", rfl⟩

/-- **C7, amended.**  An event whose action is not `'completed'` or whose
conclusion is not `'failure'` never touches the store and never starts a
pipeline; when the request passes signature validation — or no secret is
configured — it is acknowledged with HTTP 200 as ignored; a request
failing validation is instead answered 401 (or the validator throws on a
wrong-length signature) before the filter is consulted. -/
theorem webhook_filter_no_row_no_pipeline (env : PipelineEnv)
    (hmac : String → String → String) (secret : Option String)
    (req : WebhookRequest) (db : DB)
    (h : req.payload.action ≠ "completed" ∨
         req.payload.workflow_run.conclusion ≠ some "failure") :
    (handleWebhook env hmac secret req db).started = false ∧
    (handleWebhook env hmac secret req db).db = db ∧
    (∀ c m, (handleWebhook env hmac secret req db).response = some (c, m) →
      c ≠ 202) ∧
    ((match secret with
      | some s => validateGitHubWebhook hmac req s = .ok true
      | none => True) →
      ∃ m, (handleWebhook env hmac secret req db).response = some (200, m)) := by
  obtain ⟨hb1, hb2, m, hb3⟩ := handleWebhookBody_filtered env req db h
  unfold handleWebhook
  cases secret with
  | none =>
    refine ⟨hb1, hb2, ?_, fun _ => ⟨m, hb3⟩⟩
    intro c m' hm
    rw [hb3] at hm
    cases hm
    decide
  | some s =>
    dsimp only
    cases hv : validateGitHubWebhook hmac req s with
    | error e =>
      refine ⟨rfl, rfl, ?_, ?_⟩
      · intro c m' hm
        cases hm
      · intro hok
        cases hok
    | ok b =>
      cases b with
      | false =>
        refine ⟨rfl, rfl, ?_, ?_⟩
        · intro c m' hm
          cases hm
          decide
        · intro hok
          cases hok
      | true =>
        refine ⟨hb1, hb2, ?_, fun _ => ⟨m, hb3⟩⟩
        intro c m' hm
        rw [hb3] at hm
        cases hm
        decide

/-- **C7, witness** for `webhook_filter_no_row_no_pipeline`: an ignored
action in development mode (no secret). -/
theorem webhook_filter_no_row_no_pipeline_witness :
    (handleWebhook lowConfidenceEnv dummyHmac none ignoredReq emptyDB).started
      = false ∧
    ∃ m, (handleWebhook lowConfidenceEnv dummyHmac none ignoredReq
      emptyDB).response = some (200, m) :=
  ⟨(webhook_filter_no_row_no_pipeline lowConfidenceEnv dummyHmac none ignoredReq
      emptyDB (Or.inl (by decide))).1,
   (webhook_filter_no_row_no_pipeline lowConfidenceEnv dummyHmac none ignoredReq
      emptyDB (Or.inl (by decide))).2.2.2 trivial⟩

/-- A completed/failure event carrying a one-character signature. -/
def badSigReq : WebhookRequest :=
  { signature := some "x", event := some "workflow_run",
    payload := samplePayload, body := "x" }

/-- **C10, counterexample.**  With a configured secret and a signature
header of the wrong length, the signature differs from the expected HMAC
digest, yet the server does not answer 401: `crypto.timingSafeEqual`
throws on buffers of differing length, the handler sends no response at
all.  (No pipeline is started either.) -/
theorem wrong_length_signature_throws_instead_of_401 :
    badSigReq.signature ≠ some ("sha256=" ++ dummyHmac "s" badSigReq.body) ∧
    (handleWebhook lowConfidenceEnv dummyHmac (some "s") badSigReq
        emptyDB).response = none ∧
    (handleWebhook lowConfidenceEnv dummyHmac (some "s") badSigReq
        emptyDB).started = false := by
  refine ⟨by decide, by decide, by decide⟩

/-- **C10, amended.**  With a configured secret, a request whose signature
header differs from `'sha256=' ++ HMAC-SHA-256(secret, body)` never
starts a pipeline and never touches the store; it is answered HTTP 401
when the header is absent or has the digest's exact length, while a
present header of any other length makes the validator throw, so no
response is sent.  The equal-length comparison is delegated to
`crypto.timingSafeEqual` (constant-time by its contract; timing is outside
this model). -/
theorem webhook_signature_mismatch (env : PipelineEnv)
    (hmac : String → String → String) (secret : String)
    (req : WebhookRequest) (db : DB)
    (h : req.signature ≠ some ("sha256=" ++ hmac secret req.body)) :
    (handleWebhook env hmac (some secret) req db).started = false ∧
    (handleWebhook env hmac (some secret) req db).db = db ∧
    (req.signature = none →
      (handleWebhook env hmac (some secret) req db).response =
        some (401, "Invalid signature")) ∧
    (∀ sig, req.signature = some sig →
      sig.length = ("sha256=" ++ hmac secret req.body).length →
      (handleWebhook env hmac (some secret) req db).response =
        some (401, "Invalid signature")) ∧
    (∀ sig, req.signature = some sig →
      sig.length ≠ ("sha256=" ++ hmac secret req.body).length →
      (handleWebhook env hmac (some secret) req db).response = none) := by
  unfold handleWebhook validateGitHubWebhook
  cases hsig : req.signature with
  | none =>
    dsimp only
    refine ⟨rfl, rfl, fun _ => rfl, ?_, ?_⟩
    · intro sig hs; cases hs
    · intro sig hs; cases hs
  | some sig =>
    dsimp only
    by_cases hlen : sig.length = ("sha256=" ++ hmac secret req.body).length
    · have hne : sig ≠ "sha256=" ++ hmac secret req.body := by
        intro heq
        exact h (by rw [hsig, heq])
      rw [if_neg (not_not_intro hlen)]
      have hfalse : (decide (sig = "sha256=" ++ hmac secret req.body)) = false :=
        decide_eq_false hne
      rw [hfalse]
      refine ⟨rfl, rfl, ?_, ?_, ?_⟩
      · intro hn; cases hn
      · intro sig' hs _
        cases hs
        rfl
      · intro sig' hs hl
        cases hs
        exact absurd hlen hl
    · rw [if_pos hlen]
      refine ⟨rfl, rfl, ?_, ?_, ?_⟩
      · intro hn; cases hn
      · intro sig' hs hl
        cases hs
        exact absurd hl hlen
      · intro sig' hs _
        cases hs
        rfl

/-- **C10, witness** for `webhook_signature_mismatch`: the one-character
signature leads to no response and no pipeline. -/
theorem webhook_signature_mismatch_witness :
    (handleWebhook lowConfidenceEnv dummyHmac (some "s") badSigReq
        emptyDB).started = false ∧
    (handleWebhook lowConfidenceEnv dummyHmac (some "s") badSigReq
        emptyDB).response = none :=
  ⟨(webhook_signature_mismatch lowConfidenceEnv dummyHmac "s" badSigReq emptyDB
      (by decide)).1,
   (webhook_signature_mismatch lowConfidenceEnv dummyHmac "s" badSigReq emptyDB
      (by decide)).2.2.2.2 "x" rfl (by decide)⟩

/-- At most one exception is caught per attempt slot. -/
theorem caughtCount_le (env : PipelineEnv) :
    caughtCount env ≤ MAX_FIX_ATTEMPTS := by
  have := List.countP_le_length
    (p := fun n => iterCaught env n) (l := List.range' 1 MAX_FIX_ATTEMPTS)
  simpa [caughtCount] using this

/-- **C3.**  For every pipeline run — whatever the oracles return or throw
— the fix loop iterates over at most `MAX_FIX_ATTEMPTS = 3` slots, and the
run appends to the `fix_attempts` table at most one verdict row per slot
plus one synthetic fail row per slot whose iteration caught an exception:
at most `3 + caughtCount env ≤ 6` rows in total. -/
theorem pipeline_attempt_rows_bounded (env : PipelineEnv)
    (payload : WorkflowRunPayload) (db : DB) :
    (processFailure env payload db).2.fix_attempts.length ≤
      db.fix_attempts.length + MAX_FIX_ATTEMPTS + caughtCount env ∧
    caughtCount env ≤ MAX_FIX_ATTEMPTS :=
  ⟨processFailure_attempt_rows env payload db, caughtCount_le env⟩

end NightWatcher
